import Mathlib

/-!
Verification of the sardana-linkam temperature-ramp motion model.

This file embeds, as Lean definitions over exact rationals, the stateful
core of `src/sardana_linkam/ctrl/LinkamTST350TempMotorCtrl.py` (the axis
state machine with its movement timeout and tolerance completion test) and
of `src/sardana_linkam/macro/linkam.py` (the generator-based ramp driver
`linkam_ramp.run` and the pump-speed interpolation used by
`linkam_ramp_old.run`), and proves or refutes the specification's claims
about them.

Python floats are embedded as `ℚ`; `float('inf')` as `⊤` in `WithTop ℚ`.
Device I/O is passed explicitly: attribute reads become function arguments
(an `Option` bundles the three reads of a `StateOne` poll, `none` standing
for any read raising), and `time.time()` becomes a `now` argument.
-/

/-- The Sardana axis states used by the controller (`sardana.State`). -/
inductive SState where
  | On
  | Moving
  | Fault
  | Alarm
deriving DecidableEq, Repr

/-- Per-axis retained state of `LinkamTST350TempMotorCtrl` (single axis,
`MaxDevice = 1`): the ramp-tracking instance attributes `_target_temp`,
`_current_temp`, `_move_timeout` set in `__init__`, and the per-axis
`attributes[axis]` entries the embedded methods consult
(`tolerance`, `step_per_unit`, `velocity`). -/
structure LinkamCtrl where
  target_temp : Option ℚ
  current_temp : Option ℚ
  move_timeout : WithTop ℚ
  tolerance : ℚ
  step_per_unit : ℚ
  velocity : ℚ
deriving DecidableEq, Repr

/-- The ramp-state fields as reset by `__init__`: `_target_temp = None`,
`_current_temp = None`, `_move_timeout = float('inf')`; per-axis
attributes as set by `AddDevice`. -/
def initCtrl : LinkamCtrl :=
  { target_temp := none
    current_temp := none
    move_timeout := ⊤
    tolerance := 0
    step_per_unit := 1
    velocity := 1 }

/-- One successful triple of device reads in `StateOne`:
`IdleT`, `ErrorMsg`, `Program`. -/
structure DevReads where
  idle : Bool
  error : String
  program : String

/-- `LinkamTST350TempMotorCtrl.StateOne`.  `reads = none` embeds the
`except` branch (any of the three `read_attribute` calls raising); `now`
embeds `time.time()`.  Returns the controller state after the poll and
the `(state, status)` pair the method returns. -/
def StateOne (s : LinkamCtrl) (reads : Option DevReads) (now : ℚ) :
    LinkamCtrl × SState × String :=
  match reads with
  | none => (s, SState.Fault, "DS communication problem")
  | some r =>
    if r.error = "No_error" then
      if r.idle then
        if (now : WithTop ℚ) < s.move_timeout then
          -- state = Moving, then the tolerance-completion block
          match s.target_temp, s.current_temp with
          | some tgt, some cur =>
            if 0 < s.tolerance then
              if s.tolerance ≥ |tgt - cur| then
                ({ s with target_temp := none, move_timeout := ⊤ },
                 SState.On, r.program)
              else
                (s, SState.Moving, r.program)
            else
              (s, SState.On, r.program)
          | _, _ => (s, SState.On, r.program)
        else
          (s, SState.Alarm, "Motor did not reach the desired position.")
      else
        if (now : WithTop ℚ) < s.move_timeout then
          (s, SState.Moving, r.program)
        else
          (s, SState.Alarm, "Motor did not reach the desired position.")
    else
      (s, SState.Fault, r.program)

/-- `LinkamTST350TempMotorCtrl.ReadOne`: divides the raw device reading by
`step_per_unit`, records it in `_current_temp` and returns it. -/
def ReadOne (s : LinkamCtrl) (raw : ℚ) : LinkamCtrl × ℚ :=
  let temp := raw / s.step_per_unit
  ({ s with current_temp := some temp }, temp)

/-- `LinkamTST350TempMotorCtrl.StartOne`: stores the target, rescales it by
`step_per_unit`, reads the current temperature via `ReadOne`, and sets
`_move_timeout = time.time() + _time * 2 + 30` where
`_time = _delta_t / velocity * 60.0` and
`_delta_t = abs(ReadOne(axis) - temperature * step_per_unit)`. -/
def StartOne (s : LinkamCtrl) (temperature raw now : ℚ) : LinkamCtrl :=
  let s1 := { s with target_temp := some temperature }
  let temp2 := temperature * s1.step_per_unit
  let rd := ReadOne s1 raw
  let delta := |rd.2 - temp2|
  let t := delta / rd.1.velocity * 60
  { rd.1 with move_timeout := ((now + t * 2 + 30 : ℚ) : WithTop ℚ) }

/-- `LinkamTST350TempMotorCtrl.AbortOne`: issues `HoldTemp` to the device
and sets `_target_temp = None`.  (It does not touch `_move_timeout`.) -/
def AbortOne (s : LinkamCtrl) : LinkamCtrl :=
  { s with target_temp := none }

/-- The polling loop of `linkam_ramp.run` (and, with no pump profile, of
`linkam_ramp_old.run`).  `tempi` is the baseline temperature read before
the loop, `target` the ramp target, `temp` the loop variable (initialised
to `tempi`), and `readings` the successive values `get_linkam_temperature`
returns inside the loop.  Each iteration checks the Python condition
`(target > temp and rampup) or (target < temp and not rampup)` with
`rampup = target > tempi`, consumes one reading, and yields
`progress if progress < 100 else 100` with
`progress = 100 * (temp - tempi) / (target - tempi)`.  The produced list
is the sequence of yielded progress values (exhausting `readings` while
the condition still holds ends the modelled sequence). -/
def rampRun (tempi target : ℚ) : ℚ → List ℚ → List ℚ
  | _, [] => []
  | temp, r :: rest =>
    if (target > temp ∧ target > tempi) ∨ (target < temp ∧ ¬target > tempi) then
      let progress := 100 * (r - tempi) / (target - tempi)
      (if progress < 100 then progress else 100) :: rampRun tempi target r rest
    else []

/-- `linkam_ramp.run`: read the baseline `tempi`, start the ramp, then
enter the polling loop with `temp = tempi`. -/
def linkamRamp (tempi target : ℚ) (readings : List ℚ) : List ℚ :=
  rampRun tempi target tempi readings

/-- Modelled from the spec: the piecewise-linear pump-speed interpolation
(`numpy.interp`, called by `linkam_ramp_old.run` on the loaded
`(T_table, P_table)` calibration profile) is not part of this repository;
the spec describes it as piecewise-linear interpolation over
temperature-ascending samples with clamping to the nearest endpoint value
outside the table's domain.  `interpAux t0 p0 rest x` interpolates `x`
knowing `(t0, p0)` is the last sample at or below the segments in `rest`. -/
def interpAux (t0 p0 : ℚ) : List (ℚ × ℚ) → ℚ → ℚ
  | [], _ => p0
  | (t1, p1) :: rest, x =>
    if x ≤ t1 then p0 + (p1 - p0) * (x - t0) / (t1 - t0)
    else interpAux t1 p1 rest x

/-- Modelled from the spec: top-level piecewise-linear interpolation of
the calibration table at query temperature `x`; an empty table yields `0`
(never queried by the spec). -/
def np_interp (x : ℚ) (table : List (ℚ × ℚ)) : ℚ :=
  match table with
  | [] => 0
  | (t0, p0) :: rest => if x ≤ t0 then p0 else interpAux t0 p0 rest x

/-- A sample controller state with a timed ramp in flight whose gap is
within tolerance (|50 − 49| ≤ 2). -/
def sampleNear : LinkamCtrl :=
  { target_temp := some 50
    current_temp := some 49
    move_timeout := ((100 : ℚ) : WithTop ℚ)
    tolerance := 2
    step_per_unit := 1
    velocity := 1 }

/-- A sample controller state with a timed ramp in flight whose gap
exceeds tolerance (|50 − 40| > 2). -/
def sampleFar : LinkamCtrl :=
  { target_temp := some 50
    current_temp := some 40
    move_timeout := ((100 : ℚ) : WithTop ℚ)
    tolerance := 2
    step_per_unit := 1
    velocity := 1 }

example : linkamRamp 20 100 [40, 60, 80, 100] = [25, 50, 75, 100] := by
  norm_num [linkamRamp, rampRun]

example : linkamRamp 20 100 [10] = [-25/2] := by
  norm_num [linkamRamp, rampRun]

example : np_interp 5 [(0, 10), (10, 20), (20, 30)] = 15 := by
  norm_num [np_interp, interpAux]

example : np_interp 25 [(0, 10), (10, 20), (20, 30)] = 30 := by
  norm_num [np_interp, interpAux]

example : np_interp (-5) [(0, 10), (10, 20), (20, 30)] = 10 := by
  norm_num [np_interp, interpAux]

/-! ## Claim theorems -/

/-- C1: in a `StateOne` poll where all three reads succeed and the error
message is `"No_error"`, if `now` is at or past `move_timeout` then the
poll returns Alarm with the "did not reach the desired position" message,
regardless of the idle flag, and the retained state is untouched (no
tolerance or On processing happens). -/
theorem C1_deadline_alarm (s : LinkamCtrl) (r : DevReads) (now : ℚ)
    (herr : r.error = "No_error")
    (hdl : s.move_timeout ≤ (now : WithTop ℚ)) :
    StateOne s (some r) now =
      (s, SState.Alarm, "Motor did not reach the desired position.") := by
  have hlt : ¬ ((now : WithTop ℚ) < s.move_timeout) := not_lt.mpr hdl
  cases hi : r.idle <;> simp [StateOne, herr, hi, hlt]

/-- C1 witness: a state whose ramp is within tolerance still reports
Alarm (unchanged) once the deadline has passed, idle or not. -/
theorem C1_deadline_alarm_witness :
    (DevReads.mk true "No_error" "prog").error = "No_error"
      ∧ sampleNear.move_timeout ≤ ((150 : ℚ) : WithTop ℚ)
      ∧ StateOne sampleNear (some (DevReads.mk true "No_error" "prog")) 150 =
          (sampleNear, SState.Alarm, "Motor did not reach the desired position.") :=
  ⟨rfl, by decide,
    C1_deadline_alarm sampleNear (DevReads.mk true "No_error" "prog") 150 rfl
      (by decide)⟩

/-- C3: a `StateOne` poll in which the device reads fail returns Fault
with the fixed message "DS communication problem" (which ends with the
phrase "communication problem"), and leaves every retained field exactly
as before the poll. -/
theorem C3_comm_fault (s : LinkamCtrl) (now : ℚ) :
    StateOne s none now = (s, SState.Fault, "DS " ++ "communication problem") := by
  rfl

/-- C4: successful reads, healthy error, idle, within deadline, both
temperatures set, positive tolerance met: the poll returns On and resets
`target_temp` to `none` and `move_timeout` to `⊤`. -/
theorem C4_tolerance_completion (s : LinkamCtrl) (r : DevReads) (now tgt cur : ℚ)
    (herr : r.error = "No_error") (hidle : r.idle = true)
    (hlt : (now : WithTop ℚ) < s.move_timeout)
    (ht : s.target_temp = some tgt) (hc : s.current_temp = some cur)
    (htol : 0 < s.tolerance) (hle : |tgt - cur| ≤ s.tolerance) :
    StateOne s (some r) now =
      ({ s with target_temp := none, move_timeout := ⊤ }, SState.On, r.program) := by
  simp [StateOne, herr, hidle, hlt, ht, hc, htol, ge_iff_le, hle]

/-- C4 witness: a near-target state within deadline settles to On with
its ramp fields reset. -/
theorem C4_tolerance_completion_witness :
    ((50 : ℚ) : WithTop ℚ) < sampleNear.move_timeout
      ∧ (0 : ℚ) < sampleNear.tolerance
      ∧ |(50 : ℚ) - 49| ≤ sampleNear.tolerance
      ∧ StateOne sampleNear (some (DevReads.mk true "No_error" "prog")) 50 =
          ({ sampleNear with target_temp := none, move_timeout := ⊤ },
            SState.On, "prog") :=
  ⟨by decide, by norm_num [sampleNear], by norm_num [sampleNear],
    C4_tolerance_completion sampleNear (DevReads.mk true "No_error" "prog") 50 50 49
      rfl rfl (by decide) rfl rfl
      (by norm_num [sampleNear]) (by norm_num [sampleNear])⟩

/-- C10: successful reads, healthy error, idle, within deadline, both
temperatures set, positive tolerance not met: the poll returns Moving and
leaves `target_temp` and `move_timeout` unchanged. -/
theorem C10_tolerance_unmet_moving (s : LinkamCtrl) (r : DevReads) (now tgt cur : ℚ)
    (herr : r.error = "No_error") (hidle : r.idle = true)
    (hlt : (now : WithTop ℚ) < s.move_timeout)
    (ht : s.target_temp = some tgt) (hc : s.current_temp = some cur)
    (htol : 0 < s.tolerance) (hgt : s.tolerance < |tgt - cur|) :
    StateOne s (some r) now = (s, SState.Moving, r.program) := by
  simp [StateOne, herr, hidle, hlt, ht, hc, htol, ge_iff_le, not_le.mpr hgt]

/-- C10 witness: a far-from-target state within deadline stays Moving
with its ramp fields unchanged despite the instrument's idle flag. -/
theorem C10_tolerance_unmet_moving_witness :
    ((50 : ℚ) : WithTop ℚ) < sampleFar.move_timeout
      ∧ (0 : ℚ) < sampleFar.tolerance
      ∧ sampleFar.tolerance < |(50 : ℚ) - 40|
      ∧ StateOne sampleFar (some (DevReads.mk true "No_error" "prog")) 50 =
          (sampleFar, SState.Moving, "prog") :=
  ⟨by decide, by norm_num [sampleFar], by norm_num [sampleFar],
    C10_tolerance_unmet_moving sampleFar (DevReads.mk true "No_error" "prog") 50 50 40
      rfl rfl (by decide) rfl rfl
      (by norm_num [sampleFar]) (by norm_num [sampleFar])⟩

/-- C2 counterexample: aborting a state whose `move_timeout` is the
finite value 100 leaves `move_timeout` at 100, not `⊤` (`float('inf')`):
`AbortOne` does not restore the construction-time reset value. -/
theorem C2_abort_counterexample :
    (AbortOne sampleNear).move_timeout ≠ (⊤ : WithTop ℚ)
      ∧ (AbortOne sampleNear).move_timeout = ((100 : ℚ) : WithTop ℚ)
      ∧ initCtrl.move_timeout = (⊤ : WithTop ℚ) := by
  refine ⟨?_, rfl, rfl⟩
  decide

/-- C2 amended: `AbortOne` clears `target_temperature` but leaves
`move_deadline` (and every other retained field) unchanged; only
construction establishes `move_deadline = +inf`, so after an abort the
invariant `move_deadline = +inf` holds only if it held before. -/
theorem C2_abort_amended (s : LinkamCtrl) :
    (AbortOne s).target_temp = none
      ∧ (AbortOne s).move_timeout = s.move_timeout
      ∧ (AbortOne s).current_temp = s.current_temp
      ∧ (AbortOne s).tolerance = s.tolerance
      ∧ initCtrl.target_temp = none
      ∧ initCtrl.move_timeout = (⊤ : WithTop ℚ) := by
  exact ⟨rfl, rfl, rfl, rfl, rfl, rfl⟩

/-- C5 counterexample: with `step_per_unit = 2`, raw reading 40 (so the
current temperature read at start is `ReadOne`'s value 20) and target 10,
`StartOne` at `now = 0` sets the deadline to 30, not to the claimed
`now + 2 × (|target − current| / rate × 60) + 30 = 1230`: the code
measures the gap as `|raw/spu − target·spu|`, not `|target − current|`. -/
theorem C5_deadline_counterexample :
    (StartOne { target_temp := none, current_temp := none, move_timeout := ⊤,
                tolerance := 0, step_per_unit := 2, velocity := 1 } 10 40 0).move_timeout
        = ((30 : ℚ) : WithTop ℚ)
      ∧ (ReadOne { target_temp := none, current_temp := none, move_timeout := ⊤,
                   tolerance := 0, step_per_unit := 2, velocity := 1 } 40).2 = 20
      ∧ ((0 : ℚ) + 2 * (|(10 : ℚ) - 20| / 1 * 60) + 30) = 1230
      ∧ ((30 : ℚ) : WithTop ℚ) ≠ ((1230 : ℚ) : WithTop ℚ) := by
  refine ⟨?_, by norm_num [ReadOne], by norm_num, by decide⟩
  show ((0 + |40 / 2 - 10 * 2| / 1 * 60 * 2 + 30 : ℚ) : WithTop ℚ) = ((30 : ℚ) : WithTop ℚ)
  norm_num

/-- C5 amended: `StartOne` always stores the commanded target, records
the temperature read at start, and sets a fresh deadline
`now + 2 × (|raw/spu − target·spu| / velocity × 60) + 30` — equal to the
claimed `now + 2 × (|target − current| / rate × 60) + 30` whenever
`step_per_unit = 1` (its `AddDevice` default).  Nothing of a prior ramp's
target or deadline is inherited. -/
theorem C5_deadline_amended (s : LinkamCtrl) (target raw now : ℚ)
    (hspu : s.step_per_unit = 1) :
    (StartOne s target raw now).move_timeout =
        ((now + 2 * (|target - (ReadOne s raw).2| / s.velocity * 60) + 30 : ℚ) : WithTop ℚ)
      ∧ (StartOne s target raw now).target_temp = some target
      ∧ (StartOne s target raw now).current_temp = some ((ReadOne s raw).2)
      ∧ ∀ t0 m0, StartOne { s with target_temp := t0, move_timeout := m0 } target raw now
          = StartOne s target raw now := by
  refine ⟨?_, rfl, rfl, fun t0 m0 => rfl⟩
  simp only [StartOne, ReadOne, hspu]
  refine WithTop.coe_inj.mpr ?_
  rw [show (raw / 1 - target * 1 : ℚ) = -(target - raw / 1) by ring, abs_neg]
  ring

/-- C5 amended witness: starting a ramp from raw reading 20 to target 100
at velocity 1 with `step_per_unit = 1` and `now = 0` sets the deadline to
`0 + 2 × (80 / 1 × 60) + 30`. -/
theorem C5_deadline_amended_witness :
    initCtrl.step_per_unit = 1
      ∧ ((StartOne initCtrl 100 20 0).move_timeout =
            ((0 + 2 * (|(100 : ℚ) - (ReadOne initCtrl 20).2| / initCtrl.velocity * 60) + 30 : ℚ)
              : WithTop ℚ)
          ∧ (StartOne initCtrl 100 20 0).target_temp = some 100
          ∧ (StartOne initCtrl 100 20 0).current_temp = some ((ReadOne initCtrl 20).2)
          ∧ ∀ t0 m0,
              StartOne { initCtrl with target_temp := t0, move_timeout := m0 } 100 20 0
                = StartOne initCtrl 100 20 0) :=
  ⟨rfl, C5_deadline_amended initCtrl 100 20 0 rfl⟩

/-- C6: the ramp driver with baseline 20 and target 100, fed readings
40, 60, 80, 100 after the baseline, yields exactly [25, 50, 75, 100];
the baseline is not yielded and the sequence ends exactly at the element
whose reading reaches the target (readings supplied after that are never
consumed). -/
theorem C6_progress_trace :
    linkamRamp 20 100 [40, 60, 80, 100] = [25, 50, 75, 100]
      ∧ linkamRamp 20 100 [40, 60, 80, 100, 120, 90] = [25, 50, 75, 100] := by
  constructor <;> norm_num [linkamRamp, rampRun]

/-- C7 counterexample: with baseline 20 and target 100, a reading of 10
(moving opposite to the ramp direction) is still inside the loop
(100 > 10 holds) and yields progress −25/2 < 0: yielded values are not
confined to [0, 100]. -/
theorem C7_progress_counterexample :
    linkamRamp 20 100 [10] = [-25/2] ∧ (-25/2 : ℚ) < 0 := by
  constructor <;> norm_num [linkamRamp, rampRun]

/-- C7 amended: every yielded progress value is at most 100 (the yield
clamps at 100), but there is no lower clamp: a reading that moves
opposite to the ramp direction yields a negative progress value. -/
theorem C7_progress_le_100 (tempi target temp : ℚ) (readings : List ℚ) (p : ℚ)
    (hp : p ∈ rampRun tempi target temp readings) : p ≤ 100 := by
  induction readings generalizing temp with
  | nil => simp [rampRun] at hp
  | cons r rest ih =>
    rw [rampRun] at hp
    split at hp
    · rcases List.mem_cons.mp hp with h | h
      · subst h
        split
        · linarith [lt_of_lt_of_le (a := (100 : ℚ) * (r - tempi) / (target - tempi)) ‹_› le_rfl]
        · exact le_rfl
      · exact ih r h
    · simp at hp

/-- C7 amended witness: the single yielded value 25 of the ramp from 20
towards 100 through reading 40 is at most 100. -/
theorem C7_progress_le_100_witness :
    (25 : ℚ) ∈ rampRun 20 100 20 [40] ∧ (25 : ℚ) ≤ 100 :=
  ⟨by norm_num [rampRun], C7_progress_le_100 20 100 20 [40] 25 (by norm_num [rampRun])⟩

/-- C8: a degenerate ramp whose target equals the baseline temperature
never enters the polling loop (`rampup` is false and `target < temp`
fails at `temp = tempi`), so no progress value — and in particular no
division by `target − tempi = 0` — is produced: the sequence is empty
whatever the device would have read. -/
theorem C8_degenerate_ramp_empty (target : ℚ) (readings : List ℚ) :
    linkamRamp target target readings = [] := by
  cases readings <;> simp [linkamRamp, rampRun]


/-! ## Interpolation lemmas (towards C9) -/

/-- Querying `interpAux` exactly at a sample of the remaining segments
returns that sample's speed, provided temperatures strictly ascend. -/
lemma interpAux_exact (t0 p0 : ℚ) (rest : List (ℚ × ℚ))
    (hrest : List.Pairwise (fun a b : ℚ × ℚ => a.1 < b.1) rest)
    (hlt : ∀ q ∈ rest, t0 < q.1)
    (t p : ℚ) (hmem : (t, p) ∈ rest) :
    interpAux t0 p0 rest t = p := by
  induction rest generalizing t0 p0 with
  | nil => simp at hmem
  | cons q rest' ih =>
    obtain ⟨t1, p1⟩ := q
    obtain ⟨h1, hrest'⟩ := List.pairwise_cons.mp hrest
    rcases List.mem_cons.mp hmem with h | h
    · injection h with ht hp
      subst ht; subst hp
      have h01 : t0 < t := hlt (t, p) (List.mem_cons_self _ _)
      have hne : t - t0 ≠ 0 := ne_of_gt (sub_pos.mpr h01)
      simp only [interpAux]
      rw [if_pos le_rfl, mul_div_assoc, div_self hne]
      ring
    · have ht1t : t1 < t := h1 (t, p) h
      simp only [interpAux]
      rw [if_neg (not_le.mpr ht1t)]
      exact ih t1 p1 hrest' (fun q hq => h1 q hq) h

/-- Past every remaining sample, `interpAux` returns the last sample's
speed. -/
lemma interpAux_last (t0 p0 : ℚ) (rest : List (ℚ × ℚ)) (x tl pl : ℚ)
    (hgt : ∀ q ∈ rest, q.1 < x)
    (hlast : rest.getLast? = some (tl, pl)) :
    interpAux t0 p0 rest x = pl := by
  induction rest generalizing t0 p0 with
  | nil => simp at hlast
  | cons q rest' ih =>
    obtain ⟨t1, p1⟩ := q
    have hx1 : t1 < x := hgt (t1, p1) (List.mem_cons_self _ _)
    simp only [interpAux]
    rw [if_neg (not_le.mpr hx1)]
    cases rest' with
    | nil =>
      simp only [List.getLast?_singleton, Option.some.injEq, Prod.mk.injEq] at hlast
      obtain ⟨rfl, rfl⟩ := hlast
      rfl
    | cons q' rest'' =>
      rw [List.getLast?_cons_cons] at hlast
      exact ih t1 p1 (fun q hq => hgt q (List.mem_cons_of_mem _ hq)) hlast

/-- With ascending temperatures and nondecreasing speeds, `interpAux`
never drops below the seed speed for queries at or past the seed. -/
lemma interpAux_lower (t0 p0 : ℚ) (rest : List (ℚ × ℚ)) (x : ℚ)
    (hT : List.Pairwise (fun a b : ℚ × ℚ => a.1 < b.1) ((t0, p0) :: rest))
    (hP : List.Pairwise (fun a b : ℚ × ℚ => a.2 ≤ b.2) ((t0, p0) :: rest))
    (hx : t0 ≤ x) :
    p0 ≤ interpAux t0 p0 rest x := by
  induction rest generalizing t0 p0 with
  | nil => exact le_rfl
  | cons q rest' ih =>
    obtain ⟨t1, p1⟩ := q
    obtain ⟨hT1, hTrest⟩ := List.pairwise_cons.mp hT
    obtain ⟨hP1, hPrest⟩ := List.pairwise_cons.mp hP
    have h01 : t0 < t1 := hT1 (t1, p1) (List.mem_cons_self _ _)
    have hp01 : p0 ≤ p1 := hP1 (t1, p1) (List.mem_cons_self _ _)
    simp only [interpAux]
    split
    · rename_i hx1
      have hden : (0 : ℚ) < t1 - t0 := sub_pos.mpr h01
      have hnn : 0 ≤ (p1 - p0) * (x - t0) / (t1 - t0) :=
        div_nonneg (mul_nonneg (by linarith) (by linarith)) hden.le
      linarith
    · rename_i hx1
      have hx1' : t1 ≤ x := (not_le.mp hx1).le
      exact hp01.trans (ih t1 p1 hTrest hPrest hx1')

/-- Within one segment the linear value never exceeds the segment's
right-hand speed (ascending temperatures, nondecreasing speeds). -/
lemma interp_segment_upper (t0 p0 t1 p1 x : ℚ)
    (h01 : t0 < t1) (hp01 : p0 ≤ p1) (hx1 : x ≤ t1) :
    p0 + (p1 - p0) * (x - t0) / (t1 - t0) ≤ p1 := by
  have hden : (0 : ℚ) < t1 - t0 := sub_pos.mpr h01
  have hfrac : (x - t0) / (t1 - t0) ≤ 1 := (div_le_one hden).mpr (by linarith)
  have hmul := mul_le_of_le_one_right (a := p1 - p0) (by linarith) hfrac
  calc p0 + (p1 - p0) * (x - t0) / (t1 - t0)
      = p0 + (p1 - p0) * ((x - t0) / (t1 - t0)) := by rw [mul_div_assoc]
    _ ≤ p0 + (p1 - p0) := by linarith
    _ = p1 := by ring

/-- Monotonicity of `interpAux` in the query, for ascending temperatures
and nondecreasing speeds, from the seed temperature on. -/
lemma interpAux_mono (t0 p0 : ℚ) (rest : List (ℚ × ℚ)) (x y : ℚ)
    (hT : List.Pairwise (fun a b : ℚ × ℚ => a.1 < b.1) ((t0, p0) :: rest))
    (hP : List.Pairwise (fun a b : ℚ × ℚ => a.2 ≤ b.2) ((t0, p0) :: rest))
    (hx : t0 ≤ x) (hxy : x ≤ y) :
    interpAux t0 p0 rest x ≤ interpAux t0 p0 rest y := by
  induction rest generalizing t0 p0 with
  | nil => exact le_rfl
  | cons q rest' ih =>
    obtain ⟨t1, p1⟩ := q
    obtain ⟨hT1, hTrest⟩ := List.pairwise_cons.mp hT
    obtain ⟨hP1, hPrest⟩ := List.pairwise_cons.mp hP
    have h01 : t0 < t1 := hT1 (t1, p1) (List.mem_cons_self _ _)
    have hp01 : p0 ≤ p1 := hP1 (t1, p1) (List.mem_cons_self _ _)
    have hden : (0 : ℚ) < t1 - t0 := sub_pos.mpr h01
    by_cases hy1 : y ≤ t1
    · have hx1 : x ≤ t1 := hxy.trans hy1
      simp only [interpAux]
      rw [if_pos hx1, if_pos hy1]
      have hnum : (p1 - p0) * (x - t0) ≤ (p1 - p0) * (y - t0) :=
        mul_le_mul_of_nonneg_left (by linarith) (by linarith)
      have hdiv := mul_le_mul_of_nonneg_right hnum (le_of_lt (inv_pos.mpr hden))
      rw [div_eq_mul_inv, div_eq_mul_inv]
      linarith
    · have hy1' : t1 ≤ y := (not_le.mp hy1).le
      by_cases hx1 : x ≤ t1
      · simp only [interpAux]
        rw [if_pos hx1, if_neg hy1]
        exact (interp_segment_upper t0 p0 t1 p1 x h01 hp01 hx1).trans
          (interpAux_lower t1 p1 rest' y hTrest hPrest hy1')
      · have hx1' : t1 ≤ x := (not_le.mp hx1).le
        simp only [interpAux]
        rw [if_neg hx1, if_neg hy1]
        exact ih t1 p1 hTrest hPrest hx1'

/-- The sample `getLast?` returns belongs to the table. -/
lemma getLast?_mem_table (l : List (ℚ × ℚ)) (a : ℚ × ℚ)
    (h : l.getLast? = some a) : a ∈ l := by
  induction l with
  | nil => simp at h
  | cons q l' ih =>
    cases l' with
    | nil =>
      simp only [List.getLast?_singleton, Option.some.injEq] at h
      simp [h]
    | cons q' l'' =>
      rw [List.getLast?_cons_cons] at h
      exact List.mem_cons_of_mem _ (ih h)

/-- On a temperature-ascending table, the last sample's temperature
bounds every sample's temperature. -/
lemma getLast?_temp_max (l : List (ℚ × ℚ)) (tl pl : ℚ)
    (hT : List.Pairwise (fun a b : ℚ × ℚ => a.1 < b.1) l)
    (h : l.getLast? = some (tl, pl)) :
    ∀ q ∈ l, q.1 ≤ tl := by
  induction l with
  | nil => simp
  | cons q0 l' ih =>
    obtain ⟨h0, hT'⟩ := List.pairwise_cons.mp hT
    intro q hq
    rcases List.mem_cons.mp hq with rfl | hq'
    · cases l' with
      | nil =>
        simp only [List.getLast?_singleton, Option.some.injEq] at h
        subst h
        exact le_rfl
      | cons q' l'' =>
        rw [List.getLast?_cons_cons] at h
        exact (h0 _ (getLast?_mem_table _ _ h)).le
    · cases l' with
      | nil => simp at hq'
      | cons q' l'' =>
        rw [List.getLast?_cons_cons] at h
        exact ih hT' h q hq'

/-- `np_interp` queried exactly at a sample temperature of a
temperature-ascending table returns that sample's speed. -/
lemma np_interp_exact (table : List (ℚ × ℚ))
    (hT : List.Pairwise (fun a b : ℚ × ℚ => a.1 < b.1) table)
    (t p : ℚ) (hmem : (t, p) ∈ table) :
    np_interp t table = p := by
  cases table with
  | nil => simp at hmem
  | cons q rest =>
    obtain ⟨t0, p0⟩ := q
    obtain ⟨h0, hrest⟩ := List.pairwise_cons.mp hT
    rcases List.mem_cons.mp hmem with h | h
    · injection h with ht hp
      subst ht; subst hp
      simp [np_interp]
    · have h0t : t0 < t := h0 (t, p) h
      simp only [np_interp]
      rw [if_neg (not_le.mpr h0t)]
      exact interpAux_exact t0 p0 rest hrest h0 t p h

/-- `np_interp` at or below the first sample's temperature returns the
first sample's speed. -/
lemma np_interp_low (table : List (ℚ × ℚ)) (x t0 p0 : ℚ)
    (hhead : table.head? = some (t0, p0)) (hx : x ≤ t0) :
    np_interp x table = p0 := by
  cases table with
  | nil => simp at hhead
  | cons q rest =>
    simp only [List.head?_cons, Option.some.injEq] at hhead
    subst hhead
    simp only [np_interp]
    rw [if_pos hx]

/-- `np_interp` at or above the last sample's temperature of a
temperature-ascending table returns the last sample's speed. -/
lemma np_interp_high (table : List (ℚ × ℚ)) (x tl pl : ℚ)
    (hT : List.Pairwise (fun a b : ℚ × ℚ => a.1 < b.1) table)
    (hlast : table.getLast? = some (tl, pl)) (hx : tl ≤ x) :
    np_interp x table = pl := by
  rcases eq_or_lt_of_le hx with rfl | hlt
  · exact np_interp_exact table hT tl pl (getLast?_mem_table _ _ hlast)
  · have hmax := getLast?_temp_max table tl pl hT hlast
    cases table with
    | nil => simp at hlast
    | cons q rest =>
      obtain ⟨t0, p0⟩ := q
      obtain ⟨h0, hrest⟩ := List.pairwise_cons.mp hT
      have ht0 : t0 < x := lt_of_le_of_lt (hmax (t0, p0) (List.mem_cons_self _ _)) hlt
      simp only [np_interp]
      rw [if_neg (not_le.mpr ht0)]
      cases rest with
      | nil =>
        simp only [List.getLast?_singleton, Option.some.injEq, Prod.mk.injEq] at hlast
        simp [interpAux, hlast.2]
      | cons q' rest' =>
        rw [List.getLast?_cons_cons] at hlast
        exact interpAux_last t0 p0 (q' :: rest') x tl pl
          (fun q hq =>
            lt_of_le_of_lt (hmax q (List.mem_cons_of_mem _ hq)) hlt)
          hlast

/-- Global monotonicity of `np_interp` for a temperature-ascending table
with nondecreasing speeds. -/
lemma np_interp_mono (table : List (ℚ × ℚ)) (x y : ℚ)
    (hT : List.Pairwise (fun a b : ℚ × ℚ => a.1 < b.1) table)
    (hP : List.Pairwise (fun a b : ℚ × ℚ => a.2 ≤ b.2) table)
    (hxy : x ≤ y) :
    np_interp x table ≤ np_interp y table := by
  cases table with
  | nil => simp [np_interp]
  | cons q rest =>
    obtain ⟨t0, p0⟩ := q
    by_cases hy0 : y ≤ t0
    · have hx0 : x ≤ t0 := hxy.trans hy0
      simp only [np_interp]
      rw [if_pos hx0, if_pos hy0]
    · by_cases hx0 : x ≤ t0
      · simp only [np_interp]
        rw [if_pos hx0, if_neg hy0]
        exact interpAux_lower t0 p0 rest y hT hP (not_le.mp hy0).le
      · simp only [np_interp]
        rw [if_neg hx0, if_neg hy0]
        exact interpAux_mono t0 p0 rest x y hT hP (not_le.mp hx0).le hxy

/-- Negating every speed negates `interpAux`. -/
lemma interpAux_neg (t0 p0 : ℚ) (rest : List (ℚ × ℚ)) (x : ℚ) :
    interpAux t0 (-p0) (rest.map (fun q => (q.1, -q.2))) x
      = -interpAux t0 p0 rest x := by
  induction rest generalizing t0 p0 with
  | nil => rfl
  | cons q rest' ih =>
    obtain ⟨t1, p1⟩ := q
    simp only [List.map_cons, interpAux]
    split
    · ring
    · exact ih t1 p1

/-- Negating every speed negates `np_interp`. -/
lemma np_interp_neg (table : List (ℚ × ℚ)) (x : ℚ) :
    np_interp x (table.map (fun q => (q.1, -q.2))) = -np_interp x table := by
  cases table with
  | nil => simp [np_interp]
  | cons q rest =>
    obtain ⟨t0, p0⟩ := q
    simp only [List.map_cons, np_interp]
    split
    · rfl
    · exact interpAux_neg t0 p0 rest x

/-- Global antitonicity of `np_interp` for a temperature-ascending table
with nonincreasing speeds. -/
lemma np_interp_anti (table : List (ℚ × ℚ)) (x y : ℚ)
    (hT : List.Pairwise (fun a b : ℚ × ℚ => a.1 < b.1) table)
    (hP : List.Pairwise (fun a b : ℚ × ℚ => b.2 ≤ a.2) table)
    (hxy : x ≤ y) :
    np_interp y table ≤ np_interp x table := by
  have hT' : List.Pairwise (fun a b : ℚ × ℚ => a.1 < b.1)
      (table.map (fun q => (q.1, -q.2))) := by
    rw [List.pairwise_map]
    exact hT
  have hP' : List.Pairwise (fun a b : ℚ × ℚ => a.2 ≤ b.2)
      (table.map (fun q => (q.1, -q.2))) := by
    rw [List.pairwise_map]
    exact hP.imp (fun h => by simpa using h)
  have := np_interp_mono _ x y hT' hP' hxy
  rw [np_interp_neg, np_interp_neg] at this
  linarith

/-- C9: for a calibration table with strictly ascending temperature
samples, the pump-speed interpolation is piecewise linear: querying at a
sample temperature returns that sample's speed; querying at or below
(resp. at or above) the domain returns the first (resp. last) sample's
speed; and for a table with nondecreasing (resp. nonincreasing) speeds
the interpolated speed is nondecreasing (resp. nonincreasing) in the
query temperature — in particular monotonic within the table's domain. -/
theorem C9_interp_properties (table : List (ℚ × ℚ))
    (hT : List.Pairwise (fun a b : ℚ × ℚ => a.1 < b.1) table) :
    (∀ t p, (t, p) ∈ table → np_interp t table = p)
    ∧ (∀ x t0 p0, table.head? = some (t0, p0) → x ≤ t0 → np_interp x table = p0)
    ∧ (∀ x tl pl, table.getLast? = some (tl, pl) → tl ≤ x → np_interp x table = pl)
    ∧ (List.Pairwise (fun a b : ℚ × ℚ => a.2 ≤ b.2) table →
        ∀ x y, x ≤ y → np_interp x table ≤ np_interp y table)
    ∧ (List.Pairwise (fun a b : ℚ × ℚ => b.2 ≤ a.2) table →
        ∀ x y, x ≤ y → np_interp y table ≤ np_interp x table) :=
  ⟨fun t p hmem => np_interp_exact table hT t p hmem,
   fun x t0 p0 hh hx => np_interp_low table x t0 p0 hh hx,
   fun x tl pl hl hx => np_interp_high table x tl pl hT hl hx,
   fun hP x y hxy => np_interp_mono table x y hT hP hxy,
   fun hP x y hxy => np_interp_anti table x y hT hP hxy⟩

/-- C9 witness: on the ascending table (0 ↦ 10, 10 ↦ 20, 20 ↦ 30),
querying at the sample 10 returns 20, below the domain returns 10, above
the domain returns 30, and the interpolation is monotone from 5 to 15. -/
theorem C9_interp_properties_witness :
    List.Pairwise (fun a b : ℚ × ℚ => a.1 < b.1) [((0 : ℚ), (10 : ℚ)), (10, 20), (20, 30)]
    ∧ np_interp 10 [((0 : ℚ), (10 : ℚ)), (10, 20), (20, 30)] = 20
    ∧ np_interp (-5) [((0 : ℚ), (10 : ℚ)), (10, 20), (20, 30)] = 10
    ∧ np_interp 25 [((0 : ℚ), (10 : ℚ)), (10, 20), (20, 30)] = 30
    ∧ np_interp 5 [((0 : ℚ), (10 : ℚ)), (10, 20), (20, 30)]
        ≤ np_interp 15 [((0 : ℚ), (10 : ℚ)), (10, 20), (20, 30)] := by
  have hT : List.Pairwise (fun a b : ℚ × ℚ => a.1 < b.1)
      [((0 : ℚ), (10 : ℚ)), (10, 20), (20, 30)] := by
    norm_num [List.pairwise_cons]
  have h := C9_interp_properties [((0 : ℚ), (10 : ℚ)), (10, 20), (20, 30)] hT
  exact ⟨hT, h.1 10 20 (by norm_num), h.2.1 (-5) 0 10 rfl (by norm_num),
         h.2.2.1 25 20 30 rfl (by norm_num),
         h.2.2.2.1 (by norm_num [List.pairwise_cons]) 5 15 (by norm_num)⟩
